import Mathlib

/-!
Shallow embedding of the `ar` archive codec (Go package `ar`, files
`reader.go` and `writer.go`).  Bytes are modelled as `Nat` values,
byte streams as `List Nat`, and Go `int64` as `Int` (the `strconv`
64-bit range checks are modelled explicitly).  The underlying
`io.Reader` / `io.Writer` is modelled as an in-memory byte buffer:
a read returns `min (len b) available` bytes and a write always
succeeds in full, which matches `bytes.Reader` / `bytes.Buffer`
semantics used as the stream collaborator.
-/

namespace Ar

/-- Modelled from the spec: the constant `MagicString` is declared in a
repository file that is not among the given sources; the spec fixes it
to the literal 8 bytes `!<arch>\n`, and `reader.go` itself compares the
stream against that same literal. -/
def MagicString : List Nat := [33, 60, 97, 114, 99, 104, 62, 10]

/-- Modelled from the spec: the constant `HeaderByteSize` is declared in
a repository file that is not among the given sources; the spec fixes
the header record to exactly 60 bytes, and the slice offsets used in
`reader.go`/`writer.go` (`buf[58]`, `buf[59]`, `buf[48:58]`) require it. -/
def HeaderByteSize : Nat := 60

/-- Modelled from the spec: the `Header` struct is declared in a file
not among the given sources.  Field set and meaning are fixed by the
spec's data model and by every use in `reader.go`/`writer.go`.  `Date`
(a `time.Time` in Go) is modelled by its Unix-seconds value, which is
exactly what `WriteHeader` serializes (`header.Date.Unix()`) and
`Next` reconstructs (`time.Unix(date, 0)`). -/
structure Header where
  name : List Nat
  date : Int
  uid  : Int
  gid  : Int
  mode : Int
  size : Int
deriving DecidableEq

/-- Digits of `n` in base `base`, least significant first.  `fuel`
bounds the recursion depth; callers pass `fuel := n`, which always
suffices since `n / base < n` for `n ≠ 0`, `base ≥ 2`. -/
def natDigitsRev (base fuel n : Nat) : List Nat :=
  match fuel with
  | 0 => []
  | fuel' + 1 => if n = 0 then [] else n % base :: natDigitsRev base fuel' (n / base)

/-- Value of a least-significant-first digit list, for reasoning about
`natDigitsRev`. -/
def fromDigitsRev (base : Nat) : List Nat → Nat
  | [] => 0
  | d :: ds => d + base * fromDigitsRev base ds

/-- Byte rendering of a natural number in the given base, matching Go
`strconv.FormatInt` on non-negative input: most significant digit
first, no leading zeros, and `0` renders as `"0"`. -/
def formatNat (base n : Nat) : List Nat :=
  if n = 0 then [48] else (natDigitsRev base n n).reverse.map (fun d => 48 + d)

/-- Byte rendering of an `Int`, matching Go `strconv.FormatInt`:
a leading `-` (byte 45) for negative values. -/
def formatInt (base : Nat) (i : Int) : List Nat :=
  if i < 0 then 45 :: formatNat base i.natAbs else formatNat base i.toNat

/-- Go `writeString(b, s)` from `writer.go`: pad `s` on the right with
ASCII spaces until it is at least as long as the slot, then `copy`
into the slot, which truncates to the slot width. -/
def writeString (width : Nat) (s : List Nat) : List Nat :=
  (s ++ List.replicate (width - s.length) 32).take width

/-- Go `writeInt(b, i)` from `writer.go`: decimal rendering, then the
same pad-and-copy as `writeString`. -/
def writeInt (width : Nat) (i : Int) : List Nat :=
  writeString width (formatInt 10 i)

/-- Go `writeOctal(b, i)` from `writer.go`: octal rendering, then the
same pad-and-copy as `writeString`. -/
def writeOctal (width : Nat) (i : Int) : List Nat :=
  writeString width (formatInt 8 i)

/-- The 60-byte header record emitted by `Writer.WriteHeader`
(`writer.go`): the six fixed-width slots followed by the terminator
bytes, written contiguously into one buffer. -/
def headerRecord (h : Header) : List Nat :=
  writeString 16 h.name ++
    (writeInt 12 h.date ++
      (writeInt 6 h.uid ++
        (writeInt 6 h.gid ++
          (writeOctal 8 h.mode ++
            (writeInt 10 h.size ++ writeString 2 [96, 10])))))

/-- The `Writer` struct from `writer.go`: the underlying output stream
(modelled as the bytes written so far) and the remaining-writable
counter `n`. -/
structure Writer where
  out : List Nat
  n : Int
deriving DecidableEq

/-- Result of `Writer.Write`: the Go `(int, error)` pair, where the
only error produced by the function itself is `ErrWriteTooLong`. -/
inductive WriteResult where
  | ok (n : Nat)
  | tooLong
deriving DecidableEq

/-- Go `NewWriter` with a fresh in-memory output buffer. -/
def newWriter : Writer := ⟨[], 0⟩

/-- Go `Writer.WriteMagicBytes` from `writer.go`. -/
def Writer.writeMagicBytes (w : Writer) : Writer :=
  { w with out := w.out ++ MagicString }

/-- Go `Writer.WriteHeader` from `writer.go`: emit the 60-byte record
and reset the counter to `header.Size`.  The underlying in-memory
write cannot fail, so no error case appears. -/
def Writer.writeHeader (w : Writer) (h : Header) : Writer :=
  { out := w.out ++ headerRecord h, n := h.size }

/-- Go `Writer.Write` from `writer.go`: reject a buffer longer than the
counter with `ErrWriteTooLong`; otherwise append a single pad byte
`\n` when the buffer length is odd and emit everything in one
underlying write, returning the underlying write's count.  Note that
the code never decrements `w.n`. -/
def Writer.write (w : Writer) (b : List Nat) : Writer × WriteResult :=
  if (b.length : Int) > w.n then (w, .tooLong)
  else
    let bb := if b.length % 2 = 1 then b ++ [10] else b
    ({ w with out := w.out ++ bb }, .ok bb.length)

/-- Errors surfaced by the reader model.  `eof` stands for Go `io.EOF`
(also what `io.CopyN` reports on a short discard), `unexpectedEof` for
`io.ErrUnexpectedEOF` from a partial `io.ReadFull`, `badMagic` for the
`NewReader` failures, `badTerminator` for the header-ending check and
`badField i` for the per-field `strconv` parse failures in `Next`. -/
inductive ReadErr where
  | eof
  | unexpectedEof
  | badMagic
  | badTerminator
  | badField (i : Nat)
deriving DecidableEq

/-- Result type standing for a Go `(value, error)` return. -/
inductive Res (α : Type) where
  | ok (a : α)
  | error (e : ReadErr)
deriving DecidableEq

/-- The `Reader` struct from `reader.go`: the unread remainder of the
underlying stream, the remaining-payload counter `n` and the pending
pad counter `p`. -/
structure Reader where
  stream : List Nat
  n : Int
  p : Int
deriving DecidableEq

/-- Go `readString` from `reader.go`: starting from the last byte, step
left over ASCII spaces while the index stays positive, then keep the
range `b[0:i+1]`.  Because the loop guard is `i > 0`, an all-space
slot yields the single byte `b[0]` rather than the empty string. -/
def readString (b : List Nat) : List Nat :=
  let t := (b.reverse.dropWhile (fun c => c == 32)).reverse
  if t.isEmpty then b.take 1 else t

/-- Digit accumulator for `strconv.ParseInt`: consume decimal digit
bytes valid for the base, failing on anything else. -/
def parseDigitsAux (base acc : Nat) : List Nat → Option Nat
  | [] => some acc
  | c :: cs =>
    if 48 ≤ c ∧ c ≤ 57 ∧ c - 48 < base then
      parseDigitsAux base (acc * base + (c - 48)) cs
    else none

/-- Digit-run parser for `strconv.ParseInt`: an empty run is an error. -/
def parseDigits (base : Nat) (s : List Nat) : Option Nat :=
  match s with
  | [] => none
  | _ => parseDigitsAux base 0 s

/-- Go `strconv.ParseInt(s, base, 64)` as used by `readInt` and
`readOctal`: optional single sign, a non-empty digit run, and the
signed 64-bit range check. -/
def parseIntGo (base : Nat) (s : List Nat) : Option Int :=
  match s with
  | [] => none
  | c :: cs =>
    if c = 45 then
      match parseDigits base cs with
      | some m => if m ≤ 2 ^ 63 then some (-(m : Int)) else none
      | none => none
    else if c = 43 then
      match parseDigits base cs with
      | some m => if m < 2 ^ 63 then some (m : Int) else none
      | none => none
    else
      match parseDigits base s with
      | some m => if m < 2 ^ 63 then some (m : Int) else none
      | none => none

/-- Go `readInt` from `reader.go`: trim trailing spaces with the same
loop as `readString`, then parse in base 10. -/
def readInt (b : List Nat) : Option Int :=
  parseIntGo 10 (readString b)

/-- Go `readOctal` from `reader.go`: the same trim, then base 8. -/
def readOctal (b : List Nat) : Option Int :=
  parseIntGo 8 (readString b)

/-- The terminator check and field parsing done by `Reader.Next` on the
60-byte record (`reader.go`).  The terminator test is the code's
literal `buf[58] != 96 && buf[59] != 10`, which only fails when both
bytes mismatch.  Field slot offsets are the code's slice bounds. -/
def parseHeaderFields (buf : List Nat) : Res Header :=
  if buf.getD 58 0 ≠ 96 ∧ buf.getD 59 0 ≠ 10 then .error .badTerminator
  else
    match readInt ((buf.drop 16).take 12) with
    | none => .error (.badField 1)
    | some date =>
      match readInt ((buf.drop 28).take 6) with
      | none => .error (.badField 2)
      | some uid =>
        match readInt ((buf.drop 34).take 6) with
        | none => .error (.badField 3)
        | some gid =>
          match readOctal ((buf.drop 40).take 8) with
          | none => .error (.badField 4)
          | some mode =>
            match readInt ((buf.drop 48).take 10) with
            | none => .error (.badField 5)
            | some size =>
              .ok { name := readString (buf.take 16), date := date,
                    uid := uid, gid := gid, mode := mode, size := size }

/-- The part of `Reader.Next` after `skipUnread`: `io.ReadFull` of 60
bytes — `io.EOF` on zero available bytes, `io.ErrUnexpectedEOF` on a
partial record — then parsing, then the cursor reset `n := Size`,
`p := Size % 2` (Go `%` truncates, hence `Int.tmod`). -/
def nextAfterSkip (st : List Nat) : Res (Header × Reader) :=
  if st.length = 0 then .error .eof
  else if st.length < HeaderByteSize then .error .unexpectedEof
  else
    match parseHeaderFields (st.take HeaderByteSize) with
    | .error e => .error e
    | .ok h => .ok (h, ⟨st.drop HeaderByteSize, h.size, Int.tmod h.size 2⟩)

/-- Go `Reader.Next` from `reader.go`: `skipUnread` discards the unread
payload remainder plus the pending pad byte (`io.CopyN` reports
`io.EOF` if the stream is too short), then the header record is read
and parsed. -/
def Reader.next (r : Reader) : Res (Header × Reader) :=
  if (r.stream.length : Int) < r.n + r.p then .error .eof
  else nextAfterSkip (r.stream.drop (r.n + r.p).toNat)

/-- Go `Reader.Read` from `reader.go`: at counter zero return
`(0, io.EOF)` without touching the stream; otherwise cap the buffer at
the counter, perform one underlying read (which returns
`min cap available` bytes, with `io.EOF` only when nothing is
available), and decrement the counter by the bytes transferred.  The
returned triple is (new reader state, bytes read, underlying error). -/
def Reader.read (r : Reader) (blen : Nat) : Reader × List Nat × Option Unit :=
  if r.n = 0 then (r, [], some ())
  else
    let cap := if (blen : Int) > r.n then r.n.toNat else blen
    let taken := r.stream.take cap
    let err : Option Unit := if r.stream.isEmpty then some () else none
    (⟨r.stream.drop cap, r.n - (taken.length : Int), r.p⟩, taken, err)

/-- Go `NewReader` from `reader.go`: read the 8 magic bytes in full and
compare with `!<arch>\n`; both a short read and a mismatch reject the
stream. -/
def newReader (s : List Nat) : Res Reader :=
  if s.length < 8 then .error .badMagic
  else if s.take 8 ≠ MagicString then .error .badMagic
  else .ok ⟨s.drop 8, 0, 0⟩

/-- The pad byte sequence the format places after a payload: one `\n`
when the payload length is odd, nothing otherwise. -/
def padFor (d : List Nat) : List Nat :=
  if d.length % 2 = 1 then [10] else []

/-- A payload as it appears on the wire: the bytes plus the pad. -/
def paddedData (d : List Nat) : List Nat :=
  d ++ padFor d

/-- One reader step of the round-trip protocol (claim C1): `Next`, then
a single `Read` with a buffer of `Header.Size` bytes, which in the
in-memory stream model reads the whole payload (reading to
exhaustion). -/
def readEntry (r : Reader) : Res (Header × List Nat × Reader) :=
  match r.next with
  | .error e => .error e
  | .ok (h, r1) =>
    let t := r1.read h.size.toNat
    .ok (h, t.2.1, t.1)

/-- Read `fuel` consecutive entries with `readEntry`. -/
def readEntries (fuel : Nat) (r : Reader) : Res (List (Header × List Nat)) :=
  match fuel with
  | 0 => .ok []
  | f + 1 =>
    match readEntry r with
    | .error e => .error e
    | .ok (h, d, r') =>
      match readEntries f r' with
      | .error e => .error e
      | .ok rest => .ok ((h, d) :: rest)

/-- Full read-back pipeline: `NewReader`, then `fuel` entries. -/
def readArchive (s : List Nat) (fuel : Nat) : Res (List (Header × List Nat)) :=
  match newReader s with
  | .error e => .error e
  | .ok r => readEntries fuel r

/-- Serialize a list of entries with the Writer: per entry,
`WriteHeader` then one `Write` of the whole payload. -/
def writeEntries (w : Writer) (es : List (Header × List Nat)) : Writer :=
  es.foldl (fun w e => ((w.writeHeader e.1).write e.2).1) w

/-- Full write pipeline: `NewWriter`, `WriteMagicBytes`, then the
entries; the produced byte stream. -/
def writeArchive (es : List (Header × List Nat)) : List Nat :=
  (writeEntries newWriter.writeMagicBytes es).out

/-- The wire encoding of a list of entries (what `writeEntries`
produces after the magic bytes): records and padded payloads. -/
def encodeEntries : List (Header × List Nat) → List Nat
  | [] => []
  | e :: es => headerRecord e.1 ++ (paddedData e.2 ++ encodeEntries es)

/-- Signed 64-bit range, the domain of Go `int64`. -/
abbrev int64Range (i : Int) : Prop := -(2 ^ 63) ≤ i ∧ i < 2 ^ 63

/-- Numeric fields of a header render within their fixed slots and lie
in the `int64` range. -/
abbrev goodNums (h : Header) : Prop :=
  (formatInt 10 h.date).length ≤ 12 ∧ (formatInt 10 h.uid).length ≤ 6 ∧
  (formatInt 10 h.gid).length ≤ 6 ∧ (formatInt 8 h.mode).length ≤ 8 ∧
  (formatInt 10 h.size).length ≤ 10 ∧
  int64Range h.date ∧ int64Range h.uid ∧ int64Range h.gid ∧
  int64Range h.mode ∧ int64Range h.size

/-- A header that survives the round trip exactly: numeric fields fit,
and the name is nonempty, at most 16 bytes, and does not end in a
space (trailing spaces are indistinguishable from slot padding). -/
abbrev goodHeader (h : Header) : Prop :=
  h.name ≠ [] ∧ h.name.getLast? ≠ some 32 ∧ h.name.length ≤ 16 ∧ goodNums h

/-- A round-trippable entry: a good header whose `Size` equals the
payload length. -/
abbrev goodEntry (e : Header × List Nat) : Prop :=
  goodHeader e.1 ∧ (e.2.length : Int) = e.1.size

/-- WriteMagicBytes followed by WriteHeader: the stream handed to the
reader in the single-header claims. -/
def writeOneHeader (h : Header) : List Nat :=
  (newWriter.writeMagicBytes.writeHeader h).out

/-- NewReader followed by one Next, keeping only the parsed header. -/
def readBackHeader (s : List Nat) : Res Header :=
  match newReader s with
  | .error e => .error e
  | .ok r =>
    match r.next with
    | .error e => .error e
    | .ok (h, _) => .ok h

/-- A 60-byte record whose first terminator byte is correct but whose
second is the byte `X` (88) instead of `\n` (10): the corrupt-record
input of claim C2. -/
def badTermRecord : List Nat :=
  writeString 16 [97] ++
    (writeInt 12 0 ++
      (writeInt 6 0 ++
        (writeInt 6 0 ++
          (writeOctal 8 0 ++ (writeInt 10 0 ++ [96, 88])))))

/-- The spec's concrete two-entry scenario (`debian-binary`, size 4,
payload `2.0\n`; `control.tar`, size 5, payload `AAAAA`), used as the
round-trip witness input. -/
def sampleEntries : List (Header × List Nat) :=
  [({ name := [100, 101, 98, 105, 97, 110, 45, 98, 105, 110, 97, 114, 121],
      date := 0, uid := 0, gid := 0, mode := 33188, size := 4 },
    [50, 46, 48, 10]),
   ({ name := [99, 111, 110, 116, 114, 111, 108, 46, 116, 97, 114],
      date := 0, uid := 0, gid := 0, mode := 33188, size := 5 },
    [65, 65, 65, 65, 65])]

/-- A header with a 16-byte name (sixteen `a` bytes), for the claim C5
witness. -/
def h16 : Header :=
  ⟨[97, 97, 97, 97, 97, 97, 97, 97, 97, 97, 97, 97, 97, 97, 97, 97],
   0, 0, 0, 0, 0⟩

/-- A header whose `Uid` needs seven decimal digits, overflowing the
6-byte slot, for the claim C9 witness. -/
def bigUidHeader : Header := ⟨[97], 0, 1234567, 0, 0, 0⟩

/-- A header with a 17-byte name, for the claim C10 witness. -/
def h17 : Header :=
  ⟨[97, 97, 97, 97, 97, 97, 97, 97, 97, 97, 97, 97, 97, 97, 97, 97, 98],
   0, 0, 0, 0, 0⟩

/-! Lemmas about the fixed-width slot primitives. -/

theorem writeString_length (width : Nat) (s : List Nat) :
    (writeString width s).length = width := by
  simp only [writeString, List.length_take, List.length_append, List.length_replicate]
  omega

theorem writeString_of_le {width : Nat} {s : List Nat} (h : s.length ≤ width) :
    writeString width s = s ++ List.replicate (width - s.length) 32 := by
  apply List.take_of_length_le
  simp only [List.length_append, List.length_replicate]
  omega

theorem writeString_of_ge {width : Nat} {s : List Nat} (h : width ≤ s.length) :
    writeString width s = s.take width := by
  simp [writeString, Nat.sub_eq_zero_of_le h]

theorem readString_append_replicate {s : List Nat} (k : Nat) (h1 : s ≠ [])
    (h2 : s.getLast? ≠ some 32) :
    readString (s ++ List.replicate k 32) = s := by
  obtain ⟨L, b, rfl⟩ : ∃ L b, s = L ++ [b] := by
    rcases List.eq_nil_or_concat s with h | ⟨L, b, hs⟩
    · exact absurd h h1
    · exact ⟨L, b, by simpa [List.concat_eq_append] using hs⟩
  have hb : b ≠ 32 := fun hb => h2 (by rw [hb] at *; exact List.getLast?_concat L)
  have hrev : ((L ++ [b]) ++ List.replicate k 32).reverse =
      List.replicate k 32 ++ (b :: L.reverse) := by
    simp
  unfold readString
  rw [hrev, List.dropWhile_append_of_pos (by simp), List.dropWhile_cons_of_neg (by simp [hb])]
  simp

theorem readString_writeString {width : Nat} {s : List Nat} (h1 : s ≠ [])
    (h2 : s.getLast? ≠ some 32) (h3 : s.length ≤ width) :
    readString (writeString width s) = s := by
  rw [writeString_of_le h3, readString_append_replicate _ h1 h2]

/-! Lemmas about decimal/octal rendering and parsing. -/

theorem natDigitsRev_sound {base : Nat} (hb : 2 ≤ base) :
    ∀ fuel n, n ≤ fuel → fromDigitsRev base (natDigitsRev base fuel n) = n := by
  intro fuel
  induction fuel with
  | zero =>
    intro n hn
    have : n = 0 := Nat.le_zero.mp hn
    subst this
    simp [natDigitsRev, fromDigitsRev]
  | succ f ih =>
    intro n hn
    by_cases hz : n = 0
    · subst hz; simp [natDigitsRev, fromDigitsRev]
    · have hdiv : n / base < n := Nat.div_lt_self (Nat.pos_of_ne_zero hz) (by omega)
      have : natDigitsRev base (f + 1) n = n % base :: natDigitsRev base f (n / base) := by
        simp [natDigitsRev, hz]
      rw [this, fromDigitsRev, ih (n / base) (by omega)]
      exact Nat.mod_add_div n base

theorem natDigitsRev_mem_lt {base : Nat} (hb : 0 < base) :
    ∀ fuel n d, d ∈ natDigitsRev base fuel n → d < base := by
  intro fuel
  induction fuel with
  | zero => intro n d hd; simp [natDigitsRev] at hd
  | succ f ih =>
    intro n d hd
    by_cases hz : n = 0
    · subst hz; simp [natDigitsRev] at hd
    · simp only [natDigitsRev, if_neg hz, List.mem_cons] at hd
      rcases hd with h | h
      · subst h; exact Nat.mod_lt _ hb
      · exact ih _ _ h

theorem natDigitsRev_ne_nil {base fuel n : Nat} (hz : n ≠ 0) (hf : 0 < fuel) :
    natDigitsRev base fuel n ≠ [] := by
  cases fuel with
  | zero => omega
  | succ f => simp [natDigitsRev, hz]

theorem formatNat_ne_nil (base n : Nat) : formatNat base n ≠ [] := by
  unfold formatNat
  split
  · simp
  · intro h
    rw [List.map_eq_nil_iff, List.reverse_eq_nil_iff] at h
    exact natDigitsRev_ne_nil (by assumption) (Nat.pos_of_ne_zero (by assumption)) h

theorem formatNat_mem {base n : Nat} (hb2 : 2 ≤ base) (hb10 : base ≤ 10) :
    ∀ c ∈ formatNat base n, 48 ≤ c ∧ c ≤ 57 ∧ c - 48 < base := by
  intro c hc
  unfold formatNat at hc
  split at hc
  · simp at hc; omega
  · obtain ⟨d, hd, rfl⟩ := List.mem_map.mp hc
    have : d < base := natDigitsRev_mem_lt (by omega) _ _ _ (List.mem_reverse.mp hd)
    omega

theorem formatInt_ne_nil (base : Nat) (i : Int) : formatInt base i ≠ [] := by
  unfold formatInt
  split
  · simp
  · exact formatNat_ne_nil _ _

theorem formatInt_mem_ne_space {base : Nat} (hb2 : 2 ≤ base) (hb10 : base ≤ 10) (i : Int) :
    ∀ c ∈ formatInt base i, c ≠ 32 := by
  intro c hc
  unfold formatInt at hc
  split at hc
  · rcases List.mem_cons.mp hc with h | h
    · omega
    · have := formatNat_mem hb2 hb10 c h; omega
  · have := formatNat_mem hb2 hb10 c hc; omega

theorem formatInt_getLast?_ne_space {base : Nat} (hb2 : 2 ≤ base) (hb10 : base ≤ 10) (i : Int) :
    (formatInt base i).getLast? ≠ some 32 := by
  intro h
  exact formatInt_mem_ne_space hb2 hb10 i 32 (List.mem_of_getLast?_eq_some h) rfl

theorem parseDigitsAux_sound {base : Nat} :
    ∀ (s : List Nat), (∀ c ∈ s, 48 ≤ c ∧ c ≤ 57 ∧ c - 48 < base) → ∀ acc,
      parseDigitsAux base acc s = some (s.foldl (fun a c => a * base + (c - 48)) acc) := by
  intro s
  induction s with
  | nil => intro _ acc; rfl
  | cons c cs ih =>
    intro hval acc
    have hc := hval c (List.mem_cons_self c cs)
    rw [parseDigitsAux, if_pos hc, ih (fun x hx => hval x (List.mem_cons_of_mem _ hx))]
    rfl

theorem foldl_horner (base : Nat) :
    ∀ (ds : List Nat) (acc : Nat),
      ds.reverse.foldl (fun a d => a * base + d) acc =
        acc * base ^ ds.length + fromDigitsRev base ds := by
  intro ds
  induction ds with
  | nil => intro acc; simp [fromDigitsRev]
  | cons d tl ih =>
    intro acc
    rw [List.reverse_cons, List.foldl_append, ih]
    simp only [List.foldl_cons, List.foldl_nil, fromDigitsRev, List.length_cons]
    ring

theorem parseDigits_formatNat {base : Nat} (hb2 : 2 ≤ base) (hb10 : base ≤ 10) (n : Nat) :
    parseDigits base (formatNat base n) = some n := by
  by_cases hz : n = 0
  · subst hz
    have h48 : (48 ≤ 48 ∧ 48 ≤ 57 ∧ 48 - 48 < base) := by omega
    simp [formatNat, parseDigits, parseDigitsAux, h48]
    omega
  · have hne := formatNat_ne_nil base n
    have hval := formatNat_mem (n := n) hb2 hb10
    cases hfmt : formatNat base n with
    | nil => exact absurd hfmt hne
    | cons c cs =>
      have : parseDigits base (c :: cs) = parseDigitsAux base 0 (c :: cs) := rfl
      rw [← hfmt] at this ⊢
      rw [this, parseDigitsAux_sound _ (by rw [hfmt] at hval ⊢; exact hval) 0]
      congr 1
      have hmap : formatNat base n = (natDigitsRev base n n).reverse.map (fun d => 48 + d) := by
        simp [formatNat, hz]
      rw [hmap, List.foldl_map]
      have : (fun (a d : Nat) => a * base + ((fun d => 48 + d) d - 48)) =
          (fun (a d : Nat) => a * base + d) := by
        funext a d
        simp
      rw [this, foldl_horner]
      simpa using natDigitsRev_sound hb2 n n (Nat.le_refl n)

theorem parseIntGo_formatInt {base : Nat} (hb2 : 2 ≤ base) (hb10 : base ≤ 10) (i : Int)
    (hlo : -(2 ^ 63) ≤ i) (hhi : i < 2 ^ 63) :
    parseIntGo base (formatInt base i) = some i := by
  by_cases hneg : i < 0
  · have hfmt : formatInt base i = 45 :: formatNat base i.natAbs := by
      simp [formatInt, hneg]
    rw [hfmt]
    have habs : i.natAbs ≤ 2 ^ 63 := by omega
    have hni : -((i.natAbs : Int)) = i := by omega
    simp only [parseIntGo, if_pos rfl, parseDigits_formatNat hb2 hb10, if_pos habs, hni]
    simp
  · have hfmt : formatInt base i = formatNat base i.toNat := by
      simp [formatInt, hneg]
    have hne := formatNat_ne_nil base i.toNat
    have hmem := formatNat_mem (n := i.toNat) hb2 hb10
    cases hcase : formatNat base i.toNat with
    | nil => exact absurd hcase hne
    | cons c cs =>
      have hc : 48 ≤ c := by
        have := hmem c (by rw [hcase]; exact List.mem_cons_self c cs)
        omega
      have hrange : i.toNat < 2 ^ 63 := by omega
      rw [hfmt, hcase, parseIntGo, if_neg (by omega), if_neg (by omega), ← hcase,
        parseDigits_formatNat hb2 hb10]
      simp [hrange, Int.toNat_of_nonneg (show (0 : Int) ≤ i by omega)]
      omega

/-! Slot extraction lemmas for the 60-byte header record. -/

theorem writeInt_length (width : Nat) (i : Int) : (writeInt width i).length = width :=
  writeString_length _ _

theorem writeOctal_length (width : Nat) (i : Int) : (writeOctal width i).length = width :=
  writeString_length _ _

theorem headerRecord_length (h : Header) : (headerRecord h).length = 60 := by
  simp [headerRecord, writeString_length, writeInt_length, writeOctal_length]

theorem hr_drop16 (h : Header) :
    (headerRecord h).drop 16 =
      writeInt 12 h.date ++
        (writeInt 6 h.uid ++
          (writeInt 6 h.gid ++
            (writeOctal 8 h.mode ++ (writeInt 10 h.size ++ writeString 2 [96, 10])))) := by
  unfold headerRecord
  exact List.drop_left' (writeString_length 16 h.name)

theorem hr_drop28 (h : Header) :
    (headerRecord h).drop 28 =
      writeInt 6 h.uid ++
        (writeInt 6 h.gid ++
          (writeOctal 8 h.mode ++ (writeInt 10 h.size ++ writeString 2 [96, 10]))) := by
  rw [show (28 : Nat) = 16 + 12 from rfl, ← List.drop_drop, hr_drop16]
  exact List.drop_left' (writeInt_length 12 h.date)

theorem hr_drop34 (h : Header) :
    (headerRecord h).drop 34 =
      writeInt 6 h.gid ++
        (writeOctal 8 h.mode ++ (writeInt 10 h.size ++ writeString 2 [96, 10])) := by
  rw [show (34 : Nat) = 28 + 6 from rfl, ← List.drop_drop, hr_drop28]
  exact List.drop_left' (writeInt_length 6 h.uid)

theorem hr_drop40 (h : Header) :
    (headerRecord h).drop 40 =
      writeOctal 8 h.mode ++ (writeInt 10 h.size ++ writeString 2 [96, 10]) := by
  rw [show (40 : Nat) = 34 + 6 from rfl, ← List.drop_drop, hr_drop34]
  exact List.drop_left' (writeInt_length 6 h.gid)

theorem hr_drop48 (h : Header) :
    (headerRecord h).drop 48 = writeInt 10 h.size ++ writeString 2 [96, 10] := by
  rw [show (48 : Nat) = 40 + 8 from rfl, ← List.drop_drop, hr_drop40]
  exact List.drop_left' (writeOctal_length 8 h.mode)

theorem hr_drop58 (h : Header) : (headerRecord h).drop 58 = [96, 10] := by
  rw [show (58 : Nat) = 48 + 10 from rfl, ← List.drop_drop, hr_drop48,
    List.drop_left' (writeInt_length 10 h.size)]
  rfl

theorem hr_take16 (h : Header) : (headerRecord h).take 16 = writeString 16 h.name := by
  unfold headerRecord
  exact List.take_left' (writeString_length 16 h.name)

theorem hr_slot_date (h : Header) :
    ((headerRecord h).drop 16).take 12 = writeInt 12 h.date := by
  rw [hr_drop16]
  exact List.take_left' (writeInt_length 12 h.date)

theorem hr_slot_uid (h : Header) :
    ((headerRecord h).drop 28).take 6 = writeInt 6 h.uid := by
  rw [hr_drop28]
  exact List.take_left' (writeInt_length 6 h.uid)

theorem hr_slot_gid (h : Header) :
    ((headerRecord h).drop 34).take 6 = writeInt 6 h.gid := by
  rw [hr_drop34]
  exact List.take_left' (writeInt_length 6 h.gid)

theorem hr_slot_mode (h : Header) :
    ((headerRecord h).drop 40).take 8 = writeOctal 8 h.mode := by
  rw [hr_drop40]
  exact List.take_left' (writeOctal_length 8 h.mode)

theorem hr_slot_size (h : Header) :
    ((headerRecord h).drop 48).take 10 = writeInt 10 h.size := by
  rw [hr_drop48]
  exact List.take_left' (writeInt_length 10 h.size)

theorem hr_getD58 (h : Header) : (headerRecord h).getD 58 0 = 96 := by
  have hd := hr_drop58 h
  have h58 : 58 < (headerRecord h).length := by rw [headerRecord_length]; omega
  rw [List.getD_eq_getElem?_getD, show (58 : Nat) = 58 + 0 from rfl, ← List.getElem?_drop, hd]
  rfl

theorem hr_getD59 (h : Header) : (headerRecord h).getD 59 0 = 10 := by
  have hd := hr_drop58 h
  rw [List.getD_eq_getElem?_getD, show (59 : Nat) = 58 + 1 from rfl, ← List.getElem?_drop, hd]
  rfl

/-! Round-trip lemmas for single slots and the whole record. -/

theorem readInt_writeInt {width : Nat} {i : Int} (hw : (formatInt 10 i).length ≤ width)
    (hr : int64Range i) : readInt (writeInt width i) = some i := by
  unfold readInt writeInt
  rw [readString_writeString (formatInt_ne_nil 10 i)
    (formatInt_getLast?_ne_space (by omega) (by omega) i) hw]
  exact parseIntGo_formatInt (by omega) (by omega) i hr.1 hr.2

theorem readOctal_writeOctal {width : Nat} {i : Int} (hw : (formatInt 8 i).length ≤ width)
    (hr : int64Range i) : readOctal (writeOctal width i) = some i := by
  unfold readOctal writeOctal
  rw [readString_writeString (formatInt_ne_nil 8 i)
    (formatInt_getLast?_ne_space (by omega) (by omega) i) hw]
  exact parseIntGo_formatInt (by omega) (by omega) i hr.1 hr.2

theorem parseHeaderFields_headerRecord (h : Header) (hg : goodNums h) :
    parseHeaderFields (headerRecord h) =
      .ok { h with name := readString (writeString 16 h.name) } := by
  obtain ⟨hd, hu, hgd, hm, hs, rd, ru, rg, rm, rs⟩ := hg
  unfold parseHeaderFields
  rw [if_neg (by rw [hr_getD58, hr_getD59]; simp),
    hr_slot_date, hr_slot_uid, hr_slot_gid, hr_slot_mode, hr_slot_size,
    readInt_writeInt hd rd, readInt_writeInt hu ru, readInt_writeInt hgd rg,
    readOctal_writeOctal hm rm, readInt_writeInt hs rs, hr_take16]

/-! Reader-step lemmas on well-formed streams. -/

theorem nextAfterSkip_record (h : Header) (hg : goodNums h) (rest : List Nat) :
    nextAfterSkip (headerRecord h ++ rest) =
      .ok ({ h with name := readString (writeString 16 h.name) },
           ⟨rest, h.size, Int.tmod h.size 2⟩) := by
  have hlen : (headerRecord h ++ rest).length = 60 + rest.length := by
    simp [headerRecord_length]
  simp only [nextAfterSkip, HeaderByteSize]
  rw [if_neg (by omega), if_neg (by omega),
    List.take_left' (headerRecord_length h), parseHeaderFields_headerRecord h hg]
  simp only [List.drop_left' (headerRecord_length h)]

theorem next_at (h : Header) (hg : goodNums h) (extra rest : List Nat) :
    Reader.next ⟨extra ++ (headerRecord h ++ rest), 0, (extra.length : Int)⟩ =
      .ok ({ h with name := readString (writeString 16 h.name) },
           ⟨rest, h.size, Int.tmod h.size 2⟩) := by
  have hlen : (extra ++ (headerRecord h ++ rest)).length =
      extra.length + (60 + rest.length) := by
    simp [headerRecord_length]
  simp only [Reader.next]
  rw [if_neg (by rw [hlen]; push_cast; omega),
    show ((0 : Int) + (extra.length : Int)).toNat = extra.length by simp,
    List.drop_left]
  exact nextAfterSkip_record h hg rest

theorem read_all (d tail : List Nat) (p : Int) :
    ((Reader.mk (d ++ tail) (d.length : Int) p).read d.length).1 = ⟨tail, 0, p⟩ ∧
      ((Reader.mk (d ++ tail) (d.length : Int) p).read d.length).2.1 = d := by
  by_cases hd : d = []
  · subst hd
    simp [Reader.read]
  · have hlen : d.length ≠ 0 := fun hc => hd (List.length_eq_zero.mp hc)
    have hne : ((d.length : Int)) ≠ 0 := by omega
    simp only [Reader.read, if_neg hne, gt_iff_lt, lt_irrefl, if_false,
      List.take_left, List.drop_left]
    constructor
    · simp
    · trivial

theorem tmod_natCast_two (m : Nat) : Int.tmod (m : Int) 2 = ((m % 2 : Nat) : Int) :=
  (Int.ofNat_tmod m 2).symm

theorem padFor_length_cast (d : List Nat) :
    Int.tmod ((d.length : Int)) 2 = (((padFor d).length : Nat) : Int) := by
  rw [tmod_natCast_two]
  unfold padFor
  rcases Nat.mod_two_eq_zero_or_one d.length with h | h <;> simp [h]

theorem readEntry_cons (h : Header) (d : List Nat) (hg : goodHeader h)
    (hsz : (d.length : Int) = h.size) (extra rest : List Nat) :
    readEntry ⟨extra ++ (headerRecord h ++ (paddedData d ++ rest)), 0, (extra.length : Int)⟩ =
      .ok (h, d, ⟨padFor d ++ rest, 0, ((padFor d).length : Int)⟩) := by
  obtain ⟨hn1, hn2, hn3, hnums⟩ := hg
  have hname : readString (writeString 16 h.name) = h.name :=
    readString_writeString hn1 hn2 hn3
  have hstream : paddedData d ++ rest = d ++ (padFor d ++ rest) := by
    simp [paddedData, List.append_assoc]
  unfold readEntry
  rw [next_at h hnums extra (paddedData d ++ rest), hname]
  dsimp only
  rw [← hsz, hstream, Int.toNat_ofNat,
    (read_all d (padFor d ++ rest) (Int.tmod (d.length : Int) 2)).1,
    (read_all d (padFor d ++ rest) (Int.tmod (d.length : Int) 2)).2,
    padFor_length_cast, hsz]

theorem readEntries_encode :
    ∀ es : List (Header × List Nat), (∀ e ∈ es, goodEntry e) → ∀ extra : List Nat,
      readEntries es.length ⟨extra ++ encodeEntries es, 0, (extra.length : Int)⟩ = .ok es := by
  intro es
  induction es with
  | nil => intro _ extra; rfl
  | cons e es ih =>
    intro hg extra
    obtain ⟨h, d⟩ := e
    have hge := hg (h, d) (List.mem_cons_self _ _)
    show readEntries (es.length + 1) _ = _
    rw [readEntries,
      show encodeEntries ((h, d) :: es) = headerRecord h ++ (paddedData d ++ encodeEntries es)
        from rfl,
      readEntry_cons h d hge.1 hge.2 extra (encodeEntries es)]
    dsimp only
    rw [ih (fun x hx => hg x (List.mem_cons_of_mem _ hx)) (padFor d)]

/-! Writer-side lemmas. -/

theorem write_accepted (w : Writer) (b : List Nat) (hb : (b.length : Int) ≤ w.n) :
    w.write b = ({ out := w.out ++ paddedData b, n := w.n }, .ok (paddedData b).length) := by
  unfold Writer.write
  rw [if_neg (not_lt.mpr hb)]
  unfold paddedData padFor
  rcases Nat.mod_two_eq_zero_or_one b.length with h | h <;> simp [h]

theorem writeEntries_out :
    ∀ (es : List (Header × List Nat)) (w : Writer),
      (∀ e ∈ es, (e.2.length : Int) ≤ e.1.size) →
      (writeEntries w es).out = w.out ++ encodeEntries es := by
  intro es
  induction es with
  | nil => intro w _; simp [writeEntries, encodeEntries]
  | cons e es ih =>
    intro w hg
    obtain ⟨h, d⟩ := e
    have h1 : (d.length : Int) ≤ h.size := hg (h, d) (List.mem_cons_self _ _)
    have hw : ((w.writeHeader h).write d).1 =
        ⟨(w.out ++ headerRecord h) ++ paddedData d, h.size⟩ := by
      rw [show (w.writeHeader h) = ⟨w.out ++ headerRecord h, h.size⟩ from rfl,
        write_accepted ⟨w.out ++ headerRecord h, h.size⟩ d h1]
    show (writeEntries ((w.writeHeader h).write d).1 es).out = _
    rw [hw, ih _ (fun x hx => hg x (List.mem_cons_of_mem _ hx))]
    simp [encodeEntries, List.append_assoc]

theorem writeArchive_eq (es : List (Header × List Nat))
    (hg : ∀ e ∈ es, (e.2.length : Int) ≤ e.1.size) :
    writeArchive es = MagicString ++ encodeEntries es := by
  unfold writeArchive
  rw [writeEntries_out es _ hg]
  simp [newWriter, Writer.writeMagicBytes]

theorem newReader_magic (t : List Nat) : newReader (MagicString ++ t) = .ok ⟨t, 0, 0⟩ := by
  have h8 : MagicString.length = 8 := rfl
  unfold newReader
  rw [if_neg (by simp [MagicString]), if_neg (by rw [List.take_left' h8]; simp),
    List.drop_left' h8]

/-- Helper: explicit value of `Reader.read` when the counter is not
zero. -/
theorem read_pos (r : Reader) (blen : Nat) (hz : r.n ≠ 0) :
    r.read blen =
      (⟨r.stream.drop (if (blen : Int) > r.n then r.n.toNat else blen),
        r.n - ((r.stream.take (if (blen : Int) > r.n then r.n.toNat else blen)).length : Int),
        r.p⟩,
       r.stream.take (if (blen : Int) > r.n then r.n.toNat else blen),
       if r.stream.isEmpty then some () else none) := by
  unfold Reader.read
  rw [if_neg hz]

/-- Helper: the header produced by writing a single header and reading
it back, in terms of the name slot round trip. -/
theorem readBackHeader_writeOneHeader (h : Header) (hg : goodNums h) :
    readBackHeader (writeOneHeader h) =
      .ok { h with name := readString (writeString 16 h.name) } := by
  unfold readBackHeader writeOneHeader
  rw [show (newWriter.writeMagicBytes.writeHeader h).out = MagicString ++ headerRecord h by
        simp [newWriter, Writer.writeMagicBytes, Writer.writeHeader],
    newReader_magic]
  dsimp only
  have hnx := next_at h hg [] []
  simp only [List.length_nil, Nat.cast_zero, List.nil_append, List.append_nil] at hnx
  rw [hnx]

/-! The ten claims. -/

/-- Claim C1, counterexample: the claim as stated fails for an entry
whose name has a trailing space (`"a "`, payload empty, `Size` 0): the
read-back name is `"a"`, so the headers are not byte-identical even
though the payload length matches `Size`. -/
theorem claim1_cex :
    readArchive (writeArchive [(⟨[97, 32], 0, 0, 0, 0, 0⟩, [])]) 1 ≠
      .ok [(⟨[97, 32], 0, 0, 0, 0, 0⟩, [])] := by decide

/-- Claim C1 (amended): for every sequence of (Header, payload) pairs
in which each payload's length equals its Header's `Size`, each name
is nonempty, at most 16 bytes and does not end in a space, and each
numeric field lies in `int64` and renders within its fixed slot,
serializing with the Writer (`WriteMagicBytes`, then per entry
`WriteHeader` followed by `Write` of the full payload) and reading the
stream back with the Reader (`NewReader`, then per entry `Next`
followed by `Read` to exhaustion) yields exactly the original headers
and payloads, in order. -/
theorem claim1_roundTrip (es : List (Header × List Nat))
    (hg : ∀ e ∈ es, goodEntry e) :
    readArchive (writeArchive es) es.length = .ok es := by
  have hle : ∀ e ∈ es, (e.2.length : Int) ≤ e.1.size := fun e he => le_of_eq (hg e he).2
  unfold readArchive
  rw [writeArchive_eq es hle, newReader_magic]
  simpa using readEntries_encode es hg []

/-- Claim C1 witness: the spec's concrete two-entry scenario
round-trips. -/
theorem claim1_witness :
    (∀ e ∈ sampleEntries, goodEntry e) ∧
      readArchive (writeArchive sampleEntries) sampleEntries.length = .ok sampleEntries :=
  ⟨by decide, claim1_roundTrip sampleEntries (by decide)⟩

/-- Claim C2 (code bug): a 60-byte record whose byte 58 is the correct
backtick but whose byte 59 is `X` instead of `\n` is accepted by
`Reader.Next` and parsed into a header, because the code joins the two
terminator inequality tests with `&&` where the documented behavior
(any mismatch is a fatal format error) requires `||`. -/
theorem claim2_bad_terminator_accepted :
    badTermRecord.getD 58 0 = 96 ∧ badTermRecord.getD 59 0 ≠ 10 ∧
      readBackHeader (MagicString ++ badTermRecord) = .ok ⟨[97], 0, 0, 0, 0, 0⟩ := by
  decide

/-- Claim C3, counterexample: a `Write` of 2 bytes against a remaining
counter of 4 succeeds but leaves the counter at 4, not `4 - 2`. -/
theorem claim3_cex :
    ((Writer.mk [] 4).write [65, 66]).2 = WriteResult.ok 2 ∧
      ((Writer.mk [] 4).write [65, 66]).1.n ≠ 4 - 2 := by decide

/-- Claim C3 (amended): `Writer.Write` never changes the remaining
counter at all — neither the caller-supplied bytes nor the pad byte
are subtracted; the counter is only ever reset by `WriteHeader`, so
each call is checked against the full `Header.Size`. -/
theorem claim3_counter_unchanged :
    ∀ (w : Writer) (b : List Nat), (w.write b).1.n = w.n := by
  intro w b
  unfold Writer.write
  split
  · rfl
  · rfl

/-- Claim C4, counterexample: two accepted 1-byte writes to an entry
with `Size` 2.  After the second write the running payload total is 2
(even), yet the second write also appends a pad byte: the output is
`A \n B \n`, not `A \n B`. -/
theorem claim4_cex :
    ((((Writer.mk [] 2).write [65]).1.write [66]).1.out = [65, 10, 66, 10]) ∧
      ((((Writer.mk [] 2).write [65]).1.write [66]).1.out ≠ [65, 10, 66]) := by decide

/-- Claim C4 (amended): for every accepted call to `Writer.Write`, a
single pad byte `\n` is appended if and only if the length of the
buffer passed to that call is odd (the code tests `len(b) % 2`, not a
running per-entry total), and the pad is bundled into the same single
underlying write as the payload. -/
theorem claim4_pad_iff_call_odd (w : Writer) (b : List Nat)
    (hb : (b.length : Int) ≤ w.n) :
    (w.write b).1.out = w.out ++ (if b.length % 2 = 1 then b ++ [10] else b) ∧
      (w.write b).2 = .ok (if b.length % 2 = 1 then b ++ [10] else b).length := by
  rw [write_accepted w b hb]
  unfold paddedData padFor
  rcases Nat.mod_two_eq_zero_or_one b.length with h | h <;> simp [h]

/-- Claim C4 witness: an accepted 3-byte write inside a budget of 5
appends the pad. -/
theorem claim4_witness :
    ((([65, 66, 67] : List Nat).length : Int) ≤ (Writer.mk [] 5).n) ∧
      ((Writer.mk [] 5).write [65, 66, 67]).1.out =
        (Writer.mk [] 5).out ++
          (if ([65, 66, 67] : List Nat).length % 2 = 1 then [65, 66, 67] ++ [10]
           else [65, 66, 67]) :=
  ⟨by decide, (claim4_pad_iff_call_odd (Writer.mk [] 5) [65, 66, 67] (by decide)).1⟩

/-- Claim C5, counterexample: an empty `Header.Name` does not round
trip as the empty string — the reader's trim loop keeps byte 0 of the
all-space slot, so the name comes back as a single space. -/
theorem claim5_cex :
    readBackHeader (writeOneHeader ⟨[], 0, 0, 0, 0, 0⟩) = .ok ⟨[32], 0, 0, 0, 0, 0⟩ ∧
      readBackHeader (writeOneHeader ⟨[], 0, 0, 0, 0, 0⟩) ≠ .ok ⟨[], 0, 0, 0, 0, 0⟩ := by
  decide

/-- Claim C5 (amended): a 16-byte name that does not end in a space
round-trips unchanged through `WriteHeader` then `Next`; the empty
name round-trips as a single space (not as the empty string); and a
trailing space in a name produces exactly the same name slot as the
name without it, so trailing spaces are indistinguishable from
padding. -/
theorem claim5_name_roundTrip :
    (∀ h : Header, goodNums h → h.name.length = 16 → h.name.getLast? ≠ some 32 →
      readBackHeader (writeOneHeader h) = .ok h) ∧
    (∀ h : Header, goodNums h → h.name = [] →
      readBackHeader (writeOneHeader h) = .ok { h with name := [32] }) ∧
    (∀ s : List Nat, s.length < 16 → writeString 16 (s ++ [32]) = writeString 16 s) := by
  refine ⟨fun h hg h16 hsp => ?_, fun h hg hnil => ?_, fun s hs => ?_⟩
  · have hne : h.name ≠ [] := by
      intro hc
      rw [hc] at h16
      simp at h16
    rw [readBackHeader_writeOneHeader h hg,
      readString_writeString hne hsp (le_of_eq h16)]
  · rw [readBackHeader_writeOneHeader h hg, hnil,
      show readString (writeString 16 ([] : List Nat)) = [32] from by decide]
  · have h32 : (s ++ [32]).length = s.length + 1 := by simp
    rw [writeString_of_le (by omega : (s ++ [32]).length ≤ 16),
      writeString_of_le (by omega : s.length ≤ 16), List.append_assoc, h32]
    congr 1
    have hk : 16 - s.length = (16 - (s.length + 1)) + 1 := by omega
    rw [hk, List.replicate_succ]
    rfl

/-- Claim C5 witness: a header with a 16-byte name round-trips. -/
theorem claim5_witness :
    goodNums h16 ∧ h16.name.length = 16 ∧ h16.name.getLast? ≠ some 32 ∧
      readBackHeader (writeOneHeader h16) = .ok h16 :=
  ⟨by decide, by decide, by decide,
    claim5_name_roundTrip.1 h16 (by decide) (by decide) (by decide)⟩

/-- Claim C6: a `Write` whose buffer is strictly longer than the
remaining counter returns `ErrWriteTooLong` and leaves the writer —
both the output stream and the counter — completely unchanged. -/
theorem claim6_write_too_long (w : Writer) (b : List Nat)
    (hb : w.n < (b.length : Int)) :
    w.write b = (w, .tooLong) := by
  unfold Writer.write
  rw [if_pos hb]

/-- Claim C6 witness: a 2-byte write against a budget of 1. -/
theorem claim6_witness :
    (Writer.mk [] 1).n < (([65, 66] : List Nat).length : Int) ∧
      (Writer.mk [] 1).write [65, 66] = (Writer.mk [] 1, .tooLong) :=
  ⟨by decide, claim6_write_too_long (Writer.mk [] 1) [65, 66] (by decide)⟩

/-- Claim C7: when the stream holds enough bytes for the pending
discard (so `Next` reaches the header boundary, whether or not the
caller consumed the previous payload), `Next` returns the end-of-
archive condition (`io.EOF`) if zero bytes remain, and the distinct
error `io.ErrUnexpectedEOF` — never a header — if a nonempty record
shorter than 60 bytes remains. -/
theorem claim7_next_eof (r : Reader)
    (hs : r.n + r.p ≤ (r.stream.length : Int)) :
    ((r.stream.drop (r.n + r.p).toNat).length = 0 → r.next = .error .eof) ∧
      (0 < (r.stream.drop (r.n + r.p).toNat).length →
        (r.stream.drop (r.n + r.p).toNat).length < 60 →
          r.next = .error .unexpectedEof) ∧
      ReadErr.eof ≠ ReadErr.unexpectedEof := by
  refine ⟨fun h0 => ?_, fun h1 h2 => ?_, by decide⟩
  · unfold Reader.next
    rw [if_neg (not_lt.mpr hs)]
    simp only [nextAfterSkip, HeaderByteSize]
    rw [if_pos h0]
  · unfold Reader.next
    rw [if_neg (not_lt.mpr hs)]
    simp only [nextAfterSkip, HeaderByteSize]
    rw [if_neg (by omega), if_pos (by omega)]

/-- Claim C7 witness: a truncated 2-byte header after a 1-byte
discard. -/
theorem claim7_witness :
    (Reader.mk [0, 1, 2] 1 0).n + (Reader.mk [0, 1, 2] 1 0).p ≤
        (((Reader.mk [0, 1, 2] 1 0).stream.length : Nat) : Int) ∧
      Reader.next (Reader.mk [0, 1, 2] 1 0) = .error .unexpectedEof :=
  ⟨by decide,
    (claim7_next_eof (Reader.mk [0, 1, 2] 1 0) (by decide)).2.1 (by decide) (by decide)⟩

/-- Claim C8: `Reader.Read` transfers at most `min (len buffer)
remaining` bytes, decrements the counter by exactly the number of
bytes actually transferred, consumes exactly those bytes from the
underlying stream, and at counter zero returns `(0, io.EOF)` without
touching the stream — so an entry with `Size = 0` is exhausted on its
first `Read`. -/
theorem claim8_read_bounds (r : Reader) (blen : Nat) (h0 : 0 ≤ r.n) :
    (r.read blen).2.1.length ≤ min blen r.n.toNat ∧
      (r.read blen).1.n = r.n - ((r.read blen).2.1.length : Int) ∧
      (r.read blen).1.stream = r.stream.drop (r.read blen).2.1.length ∧
      (r.n = 0 → r.read blen = (r, [], some ())) := by
  by_cases hz : r.n = 0
  · rw [show r.read blen = (r, [], some ()) from by unfold Reader.read; rw [if_pos hz]]
    exact ⟨by simp, by simp, by simp, fun _ => rfl⟩
  · rw [read_pos r blen hz]
    dsimp only
    simp only [gt_iff_lt]
    have hcap : (if r.n < (blen : Int) then r.n.toNat else blen) ≤ min blen r.n.toNat := by
      split <;> omega
    refine ⟨?_, trivial, ?_, fun h => absurd h hz⟩
    · simp only [List.length_take]
      omega
    · by_cases hcl : (if r.n < (blen : Int) then r.n.toNat else blen) ≤ r.stream.length
      · rw [show (r.stream.take (if r.n < (blen : Int) then r.n.toNat else blen)).length =
            (if r.n < (blen : Int) then r.n.toNat else blen) from by
              simp only [List.length_take]; omega]
      · rw [show (r.stream.take (if r.n < (blen : Int) then r.n.toNat else blen)).length =
            r.stream.length from by simp only [List.length_take]; omega,
          List.drop_length, List.drop_eq_nil_iff.mpr (by omega)]

/-- Claim C8 witness: reading 5 bytes from an entry with 2 remaining
out of a 3-byte stream. -/
theorem claim8_witness :
    (0 : Int) ≤ (Reader.mk [7, 8, 9] 2 0).n ∧
      ((Reader.mk [7, 8, 9] 2 0).read 5).2.1.length ≤
        min 5 (Reader.mk [7, 8, 9] 2 0).n.toNat :=
  ⟨by decide, (claim8_read_bounds (Reader.mk [7, 8, 9] 2 0) 5 (by decide)).1⟩

/-- Claim C9: when a numeric rendering is at least as wide as its slot,
`writeString` keeps only the leading `width` bytes of it; `WriteHeader`
still emits exactly 60 bytes and (shown for the `Uid` slot) the slot
holds the truncated leading bytes of the rendering — no error is ever
raised, since the writer model has no failure case. -/
theorem claim9_overflow_truncated :
    (∀ (width : Nat) (s : List Nat), width < s.length → writeString width s = s.take width) ∧
      (∀ h : Header, (headerRecord h).length = 60) ∧
      (∀ h : Header, 6 < (formatInt 10 h.uid).length →
        ((headerRecord h).drop 28).take 6 = (formatInt 10 h.uid).take 6) := by
  refine ⟨fun width s hws => writeString_of_ge (by omega), headerRecord_length,
    fun h hl => ?_⟩
  rw [hr_slot_uid, writeInt, writeString_of_ge (by omega)]

/-- Claim C9 witness: a `Uid` of 1234567 overflows its 6-byte slot and
the slot keeps `123456`. -/
theorem claim9_witness :
    6 < (formatInt 10 bigUidHeader.uid).length ∧
      ((headerRecord bigUidHeader).drop 28).take 6 = (formatInt 10 bigUidHeader.uid).take 6 :=
  ⟨by decide, claim9_overflow_truncated.2.2 bigUidHeader (by decide)⟩

/-- Claim C10: a name longer than 16 bytes is silently truncated to its
first 16 bytes in the emitted record; the record is still exactly 60
bytes and `WriteHeader` always succeeds (it simply appends the record). -/
theorem claim10_name_truncated (h : Header) (hn : 16 < h.name.length) :
    (headerRecord h).take 16 = h.name.take 16 ∧
      (headerRecord h).length = 60 ∧
      (∀ w : Writer, (w.writeHeader h).out = w.out ++ headerRecord h) := by
  refine ⟨?_, headerRecord_length h, fun w => rfl⟩
  rw [hr_take16, writeString_of_ge (by omega)]

/-- Claim C10 witness: a 17-byte name. -/
theorem claim10_witness :
    16 < h17.name.length ∧ (headerRecord h17).take 16 = h17.name.take 16 :=
  ⟨by decide, (claim10_name_truncated h17 (by decide)).1⟩

end Ar
